import Mathlib

/-!
# Verification of the TF-IDF retrieval engine

Shallow embedding of the retrieval core of the RAG chatbot frontend:
`preprocessText`, `tokenize`, `calculateTFIDF`, `RetrievalEngine.cosineSimilarity`
and `RetrievalEngine.retrieve`.  Strings are modelled as `List Char`; the
JavaScript floating-point numbers are modelled as real numbers `ℝ`.

The character classes mirror the regular expressions of the source:
`\w` is `[A-Za-z0-9_]` and `\s` is the ECMAScript whitespace class.
Lowercasing is modelled on the code points where ECMAScript `toLowerCase`
is a character-to-character mapping that can affect tokenization, namely
the ASCII range (every non-ASCII letter fails `\w` and is replaced by a
space both before and after lowercasing, so the composite pipeline agrees).
-/

namespace RagRetrieval

/-- ASCII lowercasing, modelling `String.prototype.toLowerCase` on the
code points relevant to the `\w` class. -/
def jsToLower (c : Char) : Char :=
  if 'A' ≤ c ∧ c ≤ 'Z' then Char.ofNat (c.toNat + 32) else c

/-- The ECMAScript `\w` class: `[A-Za-z0-9_]`. -/
def isWordChar (c : Char) : Bool :=
  (decide ('a' ≤ c) && decide (c ≤ 'z')) ||
  (decide ('A' ≤ c) && decide (c ≤ 'Z')) ||
  (decide ('0' ≤ c) && decide (c ≤ '9')) ||
  (c == '_')

/-- The ECMAScript `\s` class (WhiteSpace and LineTerminator code points). -/
def isSpaceChar (c : Char) : Bool :=
  (c == ' ') || (c == '\t') || (c == '\n') || (c == '\x0b') || (c == '\x0c') ||
  (c == '\r') || (c == '\u00A0') || (c == '\u1680') ||
  (decide ('\u2000' ≤ c) && decide (c ≤ '\u200A')) ||
  (c == '\u2028') || (c == '\u2029') || (c == '\u202F') || (c == '\u205F') ||
  (c == '\u3000') || (c == '\uFEFF')

/-- `text.toLowerCase()`. -/
def lowerStep (l : List Char) : List Char :=
  l.map jsToLower

/-- `.replace(/[^\w\s]/g, " ")`: every character that is neither a word
character nor whitespace becomes a single space. -/
def replaceStep (l : List Char) : List Char :=
  l.map (fun c => if isWordChar c || isSpaceChar c then c else ' ')

/-- Auxiliary state-passing pass for `.replace(/\s+/g, " ")`: the flag
records whether the previous character was whitespace (already emitted as
one space). -/
def collapseAux : Bool → List Char → List Char
  | _, [] => []
  | prevSpace, c :: rest =>
    if isSpaceChar c then
      if prevSpace then collapseAux true rest
      else ' ' :: collapseAux true rest
    else c :: collapseAux false rest

/-- `.replace(/\s+/g, " ")`: each maximal whitespace run becomes one space. -/
def collapseWS (l : List Char) : List Char :=
  collapseAux false l

/-- `.trim()`: drop leading and trailing whitespace. -/
def trimChars (l : List Char) : List Char :=
  ((l.dropWhile isSpaceChar).reverse.dropWhile isSpaceChar).reverse

/-- `preprocessText` from the source: lowercase, replace non-word
non-space characters by a space, collapse whitespace runs, trim. -/
def preprocessText (l : List Char) : List Char :=
  trimChars (collapseWS (replaceStep (lowerStep l)))

/-- `.split(" ")` with ECMAScript semantics: split at every single space
character, keeping empty chunks; the empty string yields one empty chunk. -/
def splitOnSpace : List Char → List (List Char)
  | [] => [[]]
  | c :: rest =>
    if c = ' ' then [] :: splitOnSpace rest
    else (splitOnSpace rest).modifyHead (fun w => c :: w)

/-- `tokenize` from the source: empty input short-circuits to `[]`;
otherwise preprocess, split on spaces and keep words of length `> 2`. -/
def tokenize (l : List Char) : List (List Char) :=
  if l = [] then []
  else (splitOnSpace (preprocessText l)).filter (fun w => decide (2 < w.length))

/-- A document record: the engine only reads `content`; the other fields
are carried through unmodified. -/
structure Document where
  id : Nat
  title : List Char
  content : List Char
  timestamp : Nat
deriving DecidableEq, Repr

noncomputable section

/-- A sparse term-weight vector: a JavaScript object mapping terms to
numbers, modelled as its (duplicate-free) key list plus a total valuation
that vanishes outside the keys. -/
structure SparseVec where
  support : List (List Char)
  val : List Char → ℝ

/-- `queryVec[term] = (queryVec[term] || 0) + 1`: one step of the query
vector construction loop. -/
def bumpTerm (v : SparseVec) (t : List Char) : SparseVec :=
  { support := if t ∈ v.support then v.support else v.support ++ [t],
    val := fun u => if u = t then v.val u + 1 else v.val u }

/-- The query weight vector built by `retrieve`: raw occurrence counts. -/
def buildQueryVec (terms : List (List Char)) : SparseVec :=
  terms.foldl bumpTerm { support := [], val := fun _ => 0 }

/-- `documents.length || 1` from `calculateTFIDF`. -/
def docCount (documents : List Document) : ℕ :=
  if documents.length = 0 then 1 else documents.length

/-- `termDocFreq`: the number of documents whose (deduplicated) term set
contains `t`; the JavaScript `Set` is modelled by `List.dedup`. -/
def termDocFreq (documents : List Document) (t : List Char) : ℕ :=
  documents.countP (fun d => decide (t ∈ (tokenize d.content).dedup))

/-- The TF-IDF weight vector `calculateTFIDF` attaches to one document:
`tf = termFreq[term] / Math.max(1, terms.length)` and
`idf = Math.log(docCount / (termDocFreq[term] || 1))`. -/
def tfidfVecOf (documents : List Document) (d : Document) : SparseVec :=
  { support := (tokenize d.content).dedup,
    val := fun t =>
      if t ∈ tokenize d.content then
        (((tokenize d.content).count t : ℝ) / (max 1 (tokenize d.content).length : ℝ)) *
          Real.log ((docCount documents : ℝ) /
            ((if termDocFreq documents t = 0 then 1 else termDocFreq documents t : ℕ) : ℝ))
      else 0 }

/-- `calculateTFIDF`: every document annotated with its weight vector. -/
def calculateTFIDF (documents : List Document) : List (Document × SparseVec) :=
  documents.map (fun d => (d, tfidfVecOf documents d))

/-- The union of the key sets of two vectors
(`new Set([...Object.keys(vec1), ...Object.keys(vec2)])`). -/
def unionKeys (v1 v2 : SparseVec) : List (List Char) :=
  (v1.support ++ v2.support).dedup

/-- `RetrievalEngine.cosineSimilarity`: dot product and magnitudes over
the union of the two key sets; `0` when the denominator is `0`. -/
def cosineSimilarity (v1 v2 : SparseVec) : ℝ :=
  let keys := unionKeys v1 v2
  let dotProduct := (keys.map (fun t => v1.val t * v2.val t)).sum
  let mag1 := (keys.map (fun t => v1.val t * v1.val t)).sum
  let mag2 := (keys.map (fun t => v2.val t * v2.val t)).sum
  let denom := Real.sqrt mag1 * Real.sqrt mag2
  if denom = 0 then 0 else dotProduct / denom

/-- A document together with its similarity score (`{ ...doc, score }`). -/
structure ScoredDoc where
  doc : Document
  score : ℝ

/-- Insert into a list that is sorted by descending score, after every
element of greater-or-equal score: the behaviour of the stable
`Array.prototype.sort((a, b) => b.score - a.score)` on each element. -/
def insertDesc (x : ScoredDoc) : List ScoredDoc → List ScoredDoc
  | [] => [x]
  | y :: rest => if y.score < x.score then x :: y :: rest else y :: insertDesc x rest

/-- Stable descending sort by score, modelling
`.sort((a, b) => b.score - a.score)`. -/
def sortByScoreDesc (l : List ScoredDoc) : List ScoredDoc :=
  l.foldl (fun acc x => insertDesc x acc) []

/-- The scored document list of `retrieve`, in input order:
`this.documents.map((doc) => ({ ...doc, score: cosineSimilarity(queryVec, doc.tfidf) }))`. -/
def scoredList (documents : List Document) (query : List Char) : List ScoredDoc :=
  (calculateTFIDF documents).map
    (fun p => ScoredDoc.mk p.1 (cosineSimilarity (buildQueryVec (tokenize query)) p.2))

/-- `RetrievalEngine.retrieve`: guard empty/whitespace-only queries and
queries with no terms, score every document, keep strictly positive
scores, sort descending (stably) and truncate to `topK`. -/
def retrieve (documents : List Document) (query : List Char) (topK : ℕ) : List ScoredDoc :=
  if query = [] then []
  else if trimChars query = [] then []
  else if (tokenize query).length = 0 then []
  else
    ((sortByScoreDesc
      ((scoredList documents query).filter (fun s => decide (0 < s.score)))).take topK)

end

/-! ## Spec-side definitions

These follow the specification's wording and are compared against the
source-side definitions above in the refinement claims. -/

/-- Splitting on whitespace (any `\s` character), spec-side: the net
effect the specification ascribes to collapse–trim–split. -/
def splitAnySpace : List Char → List (List Char)
  | [] => [[]]
  | c :: rest =>
    if isSpaceChar c then [] :: splitAnySpace rest
    else (splitAnySpace rest).modifyHead (fun w => c :: w)

/-- The normalizer as the specification describes it: lowercase, replace
every character that is neither a word character nor whitespace with a
space, split on whitespace, and discard every token of length `≤ 2`. -/
def specTokenize (l : List Char) : List (List Char) :=
  (splitAnySpace (replaceStep (lowerStep l))).filter (fun w => decide (2 < w.length))

/-- Spec-side term frequency: occurrences of `t` among the document's
terms divided by the total term count (minimum denominator 1). -/
noncomputable def tfSpec (d : Document) (t : List Char) : ℝ :=
  ((tokenize d.content).count t : ℝ) / (max 1 (tokenize d.content).length : ℝ)

/-- Spec-side document frequency: the number of documents whose
deduplicated term set contains `t`. -/
def dfSpec (documents : List Document) (t : List Char) : ℕ :=
  (documents.filter (fun d => decide (t ∈ (tokenize d.content).dedup))).length

/-- Spec-side inverse document frequency: `ln (N / df t)`. -/
noncomputable def idfSpec (documents : List Document) (t : List Char) : ℝ :=
  Real.log ((documents.length : ℝ) / (dfSpec documents t : ℝ))

/-! ## Concrete documents and queries used in scenario proofs -/

/-- Document whose content is the two query terms repeated. -/
def mlDoc : Document :=
  ⟨1, "ml".data, "machine learning machine learning".data, 0⟩

/-- Document sharing no term with the `"machine learning"` query. -/
def catDoc : Document :=
  ⟨2, "cats".data, "cats dogs".data, 0⟩

/-- First document of the three-document scenario. -/
def aiDoc1 : Document :=
  ⟨1, "d1".data, "ML is a subset of AI".data, 0⟩

/-- Second document of the three-document scenario. -/
def aiDoc2 : Document :=
  ⟨2, "d2".data, "Cats are mammals".data, 0⟩

/-- Third document of the three-document scenario. -/
def aiDoc3 : Document :=
  ⟨3, "d3".data, "Deep learning is part of machine learning".data, 0⟩

/-- The three-document scenario collection. -/
def threeDocs : List Document := [aiDoc1, aiDoc2, aiDoc3]

/-- The scenario query. -/
def mlQuery : List Char := "machine learning".data

/-- Two documents with identical content, for the `df(t) = N` witness. -/
def twinDoc1 : Document := ⟨1, "t1".data, "cat dog".data, 0⟩

/-- Second of the two identical-content documents. -/
def twinDoc2 : Document := ⟨2, "t2".data, "cat dog".data, 0⟩

/-- The two-document collection in which every term occurs in both documents. -/
def twinDocs : List Document := [twinDoc1, twinDoc2]

/-! ## Lemmas about the query vector -/

theorem foldl_bumpTerm_val (terms : List (List Char)) (v : SparseVec) (t : List Char) :
    (terms.foldl bumpTerm v).val t = v.val t + (terms.count t : ℝ) := by
  induction terms generalizing v with
  | nil => simp
  | cons a rest ih =>
    rw [List.foldl_cons, ih]
    by_cases h : t = a
    · subst h
      simp [bumpTerm, List.count_cons]
      ring
    · have hne : (a == t) = false := by
        simp [beq_iff_eq]
        exact fun hh => h hh.symm
      simp [bumpTerm, List.count_cons, h, hne]

theorem buildQueryVec_val (terms : List (List Char)) (t : List Char) :
    (buildQueryVec terms).val t = (terms.count t : ℝ) := by
  rw [buildQueryVec, foldl_bumpTerm_val]
  simp

theorem foldl_bumpTerm_support (terms : List (List Char)) (v : SparseVec) (t : List Char) :
    t ∈ (terms.foldl bumpTerm v).support ↔ t ∈ v.support ∨ t ∈ terms := by
  induction terms generalizing v with
  | nil => simp
  | cons a rest ih =>
    rw [List.foldl_cons, ih]
    by_cases h : a ∈ v.support
    · simp only [bumpTerm, if_pos h, List.mem_cons]
      constructor
      · rintro (hv | hr)
        · exact Or.inl hv
        · exact Or.inr (Or.inr hr)
      · rintro (hv | rfl | hr)
        · exact Or.inl hv
        · exact Or.inl h
        · exact Or.inr hr
    · simp only [bumpTerm, if_neg h, List.mem_append, List.mem_singleton, List.mem_cons]
      tauto

theorem buildQueryVec_support (terms : List (List Char)) (t : List Char) :
    t ∈ (buildQueryVec terms).support ↔ t ∈ terms := by
  rw [buildQueryVec, foldl_bumpTerm_support]
  simp

/-! ## Guard lemmas for degenerate queries -/

theorem tokenize_nil : tokenize [] = [] := by
  simp [tokenize]

theorem all_space_of_trim_eq_nil {q : List Char} (h : trimChars q = []) :
    ∀ c ∈ q, isSpaceChar c := by
  intro c hc
  unfold trimChars at h
  rw [List.reverse_eq_nil_iff, List.dropWhile_eq_nil_iff] at h
  rcases List.mem_append.mp ((List.takeWhile_append_dropWhile (p := isSpaceChar) (l := q)) ▸ hc) with
    hTake | hDrop
  · exact List.mem_takeWhile_imp hTake
  · exact h c (List.mem_reverse.mpr hDrop)

theorem isSpaceChar_not_upper {c : Char} (h : isSpaceChar c = true) :
    ¬('A' ≤ c ∧ c ≤ 'Z') := by
  rintro ⟨hA, hZ⟩
  simp only [isSpaceChar, Bool.or_eq_true, beq_iff_eq, Bool.and_eq_true, decide_eq_true_eq] at h
  rcases h with
    (((((((((((((h | h) | h) | h) | h) | h) | h) | h) | ⟨h1, h2⟩) | h) | h) | h) | h) | h) | h <;>
    first
      | (subst h; revert hA hZ; decide)
      | (exact absurd (le_trans h1 hZ) (by decide))

theorem jsToLower_space {c : Char} (h : isSpaceChar c = true) : jsToLower c = c := by
  unfold jsToLower
  rw [if_neg (isSpaceChar_not_upper h)]

theorem collapseAux_all_space (l : List Char) (h : ∀ c ∈ l, isSpaceChar c) :
    collapseAux true l = [] ∧ collapseAux false l = if l = [] then [] else [' '] := by
  induction l with
  | nil => exact ⟨rfl, rfl⟩
  | cons c rest ih =>
    have hc : isSpaceChar c := h c (List.mem_cons_self c rest)
    have ih' := ih (fun d hd => h d (List.mem_cons_of_mem c hd))
    constructor
    · simp [collapseAux, hc, ih'.1]
    · simp [collapseAux, hc, ih'.1]

theorem tokenize_of_all_space {q : List Char} (h : ∀ c ∈ q, isSpaceChar c) :
    tokenize q = [] := by
  rcases Decidable.em (q = []) with rfl | hq
  · exact tokenize_nil
  · have hlower : lowerStep q = q := by
      rw [lowerStep, List.map_congr_left (fun c hc => jsToLower_space (h c hc))]
      exact List.map_id q
    have hreplace : replaceStep q = q := by
      rw [replaceStep,
        List.map_congr_left (g := id) (fun c hc => by simp [h c hc]),
        List.map_id]
    have hcoll : collapseWS q = [' '] := by
      rw [collapseWS, (collapseAux_all_space q h).2, if_neg hq]
    unfold tokenize
    rw [if_neg hq]
    unfold preprocessText
    rw [hlower, hreplace, hcoll]
    decide

theorem tokenize_of_trim_eq_nil {q : List Char} (h : trimChars q = []) :
    tokenize q = [] := tokenize_of_all_space (all_space_of_trim_eq_nil h)

/-! ## Lemmas about cosine similarity -/

theorem cosineSimilarity_eq_zero (v w : SparseVec)
    (h : ∀ t ∈ unionKeys v w, v.val t * w.val t = 0) :
    cosineSimilarity v w = 0 := by
  have hdot : ((unionKeys v w).map (fun t => v.val t * w.val t)).sum = 0 :=
    List.sum_eq_zero (by
      intro x hx
      obtain ⟨t, ht, rfl⟩ := List.mem_map.mp hx
      exact h t ht)
  unfold cosineSimilarity
  simp only [hdot]
  split
  · rfl
  · exact zero_div _

theorem cosineSimilarity_le_one (v w : SparseVec) : cosineSimilarity v w ≤ 1 := by
  unfold cosineSimilarity
  dsimp only
  split
  · exact zero_le_one
  · rename_i hdenom
    set keys := unionKeys v w with hkeys
    have hnodup : keys.Nodup := List.nodup_dedup _
    set D := (keys.map (fun t => v.val t * w.val t)).sum with hD
    set M1 := (keys.map (fun t => v.val t * v.val t)).sum with hM1
    set M2 := (keys.map (fun t => w.val t * w.val t)).sum with hM2
    have hM1nonneg : 0 ≤ M1 :=
      List.sum_nonneg (by
        intro x hx
        obtain ⟨t, _, rfl⟩ := List.mem_map.mp hx
        exact mul_self_nonneg _)
    have hM2nonneg : 0 ≤ M2 :=
      List.sum_nonneg (by
        intro x hx
        obtain ⟨t, _, rfl⟩ := List.mem_map.mp hx
        exact mul_self_nonneg _)
    have hdenom_pos : 0 < Real.sqrt M1 * Real.sqrt M2 :=
      lt_of_le_of_ne (mul_nonneg (Real.sqrt_nonneg _) (Real.sqrt_nonneg _))
        (Ne.symm hdenom)
    rw [div_le_one hdenom_pos]
    have hD2 : D ^ 2 ≤ M1 * M2 := by
      have hDf : D = ∑ t ∈ keys.toFinset, v.val t * w.val t :=
        (List.sum_toFinset _ hnodup).symm
      have hM1f : M1 = ∑ t ∈ keys.toFinset, (v.val t) ^ 2 := by
        rw [hM1, ← List.sum_toFinset _ hnodup]
        refine Finset.sum_congr rfl (fun t _ => ?_)
        ring
      have hM2f : M2 = ∑ t ∈ keys.toFinset, (w.val t) ^ 2 := by
        rw [hM2, ← List.sum_toFinset _ hnodup]
        refine Finset.sum_congr rfl (fun t _ => ?_)
        ring
      rw [hDf, hM1f, hM2f]
      exact Finset.sum_mul_sq_le_sq_mul_sq _ _ _
    calc D ≤ |D| := le_abs_self D
      _ = Real.sqrt (D ^ 2) := (Real.sqrt_sq_eq_abs D).symm
      _ ≤ Real.sqrt (M1 * M2) := Real.sqrt_le_sqrt hD2
      _ = Real.sqrt M1 * Real.sqrt M2 := Real.sqrt_mul hM1nonneg M2

theorem cosineSimilarity_eq_one (v w : SparseVec) (lam : ℝ) (hlam : 0 < lam)
    (hw : ∀ t ∈ unionKeys v w, w.val t = lam * v.val t)
    (t₀ : List Char) (ht₀ : t₀ ∈ unionKeys v w) (hv₀ : v.val t₀ ≠ 0) :
    cosineSimilarity v w = 1 := by
  unfold cosineSimilarity
  set keys := unionKeys v w with hkeys
  set M1 := (keys.map (fun t => v.val t * v.val t)).sum with hM1
  have hM1pos : 0 < M1 := by
    have hmem : v.val t₀ * v.val t₀ ∈ keys.map (fun t => v.val t * v.val t) :=
      List.mem_map_of_mem _ ht₀
    have hle : v.val t₀ * v.val t₀ ≤ M1 :=
      List.single_le_sum (by
        intro x hx
        obtain ⟨t, _, rfl⟩ := List.mem_map.mp hx
        exact mul_self_nonneg _) _ hmem
    exact lt_of_lt_of_le (mul_self_pos.mpr hv₀) hle
  have hdot : (keys.map (fun t => v.val t * w.val t)).sum = lam * M1 := by
    rw [hM1, ← List.sum_map_mul_left]
    refine congrArg List.sum (List.map_congr_left (fun t ht => ?_))
    rw [hw t ht]
    ring
  have hmag2 : (keys.map (fun t => w.val t * w.val t)).sum = lam * lam * M1 := by
    rw [hM1, ← List.sum_map_mul_left]
    refine congrArg List.sum (List.map_congr_left (fun t ht => ?_))
    rw [hw t ht]
    ring
  have hsqrt2 : Real.sqrt (lam * lam * M1) = lam * Real.sqrt M1 := by
    rw [Real.sqrt_mul (mul_self_nonneg lam), Real.sqrt_mul_self hlam.le]
  have hdenom : Real.sqrt M1 * Real.sqrt (lam * lam * M1) = lam * M1 := by
    rw [hsqrt2]
    calc Real.sqrt M1 * (lam * Real.sqrt M1)
        = lam * (Real.sqrt M1 * Real.sqrt M1) := by ring
      _ = lam * M1 := by rw [Real.mul_self_sqrt hM1pos.le]
  have hdenom_ne : lam * M1 ≠ 0 := ne_of_gt (mul_pos hlam hM1pos)
  simp only [hdot, hmag2, hdenom]
  rw [if_neg hdenom_ne]
  exact div_self hdenom_ne

/-! ## Lemmas about the stable descending sort -/

theorem insertDesc_perm (x : ScoredDoc) (l : List ScoredDoc) :
    (insertDesc x l).Perm (x :: l) := by
  induction l with
  | nil => exact List.Perm.refl _
  | cons y rest ih =>
    unfold insertDesc
    split
    · exact List.Perm.refl _
    · exact ((ih.cons y).trans (List.Perm.swap x y rest))

theorem sortByScoreDesc_perm (l : List ScoredDoc) : (sortByScoreDesc l).Perm l := by
  induction l using List.reverseRecOn with
  | nil => exact List.Perm.refl _
  | append_singleton l x ih =>
    have hfold : sortByScoreDesc (l ++ [x]) = insertDesc x (sortByScoreDesc l) := by
      unfold sortByScoreDesc
      rw [List.foldl_append]
      rfl
    rw [hfold]
    exact ((insertDesc_perm x (sortByScoreDesc l)).trans (ih.cons x)).trans
      (List.perm_append_singleton x l).symm

theorem insertDesc_pairwise (x : ScoredDoc) (l : List ScoredDoc)
    (h : l.Pairwise (fun a b => b.score ≤ a.score)) :
    (insertDesc x l).Pairwise (fun a b => b.score ≤ a.score) := by
  induction l with
  | nil => simp [insertDesc]
  | cons y rest ih =>
    rw [List.pairwise_cons] at h
    obtain ⟨hy, hrest⟩ := h
    unfold insertDesc
    split
    · rename_i hlt
      rw [List.pairwise_cons]
      refine ⟨?_, List.pairwise_cons.mpr ⟨hy, hrest⟩⟩
      intro z hz
      rcases List.mem_cons.mp hz with rfl | hz'
      · exact le_of_lt hlt
      · exact le_trans (hy z hz') (le_of_lt hlt)
    · rename_i hnlt
      rw [List.pairwise_cons]
      refine ⟨?_, ih hrest⟩
      intro z hz
      have hz' : z ∈ x :: rest := (insertDesc_perm x rest).mem_iff.mp hz
      rcases List.mem_cons.mp hz' with rfl | hz''
      · exact not_lt.mp hnlt
      · exact hy z hz''

theorem sortByScoreDesc_pairwise (l : List ScoredDoc) :
    (sortByScoreDesc l).Pairwise (fun a b => b.score ≤ a.score) := by
  induction l using List.reverseRecOn with
  | nil => simp [sortByScoreDesc]
  | append_singleton l x ih =>
    have hfold : sortByScoreDesc (l ++ [x]) = insertDesc x (sortByScoreDesc l) := by
      unfold sortByScoreDesc
      rw [List.foldl_append]
      rfl
    rw [hfold]
    exact insertDesc_pairwise x _ ih

theorem insertDesc_filter_score (x : ScoredDoc) (L : List ScoredDoc) (s : ℝ)
    (hL : L.Pairwise (fun a b => b.score ≤ a.score)) :
    (insertDesc x L).filter (fun r => decide (r.score = s)) =
      L.filter (fun r => decide (r.score = s)) ++ (if x.score = s then [x] else []) := by
  induction L with
  | nil =>
    by_cases h : x.score = s <;> simp [insertDesc, h]
  | cons y rest ih =>
    rw [List.pairwise_cons] at hL
    obtain ⟨hy, hrest⟩ := hL
    unfold insertDesc
    split
    · rename_i hlt
      by_cases hx : x.score = s
      · have hnone : ∀ z ∈ y :: rest, ¬(decide (z.score = s) = true) := by
          intro z hz
          simp only [decide_eq_true_eq]
          intro hzs
          rcases List.mem_cons.mp hz with rfl | hz'
          · exact absurd (hzs ▸ hlt) (by rw [hx]; exact lt_irrefl s)
          · exact absurd hzs (ne_of_lt (lt_of_le_of_lt (hy z hz') (hx ▸ hlt)))
        rw [List.filter_cons_of_pos (by simpa using hx),
          List.filter_eq_nil_iff.mpr hnone, if_pos hx]
        rfl
      · rw [List.filter_cons_of_neg (by simpa using hx), if_neg hx, List.append_nil]
    · rename_i hnlt
      by_cases hys : y.score = s
      · rw [List.filter_cons_of_pos (by simpa using hys), ih hrest,
          List.filter_cons_of_pos (by simpa using hys), List.cons_append]
      · rw [List.filter_cons_of_neg (by simpa using hys), ih hrest,
          List.filter_cons_of_neg (by simpa using hys)]

theorem sortByScoreDesc_filter_score (l : List ScoredDoc) (s : ℝ) :
    (sortByScoreDesc l).filter (fun r => decide (r.score = s)) =
      l.filter (fun r => decide (r.score = s)) := by
  induction l using List.reverseRecOn with
  | nil => rfl
  | append_singleton l x ih =>
    have hfold : sortByScoreDesc (l ++ [x]) = insertDesc x (sortByScoreDesc l) := by
      unfold sortByScoreDesc
      rw [List.foldl_append]
      rfl
    rw [hfold, insertDesc_filter_score x _ s (sortByScoreDesc_pairwise l), ih,
      List.filter_append]
    congr 1
    by_cases hx : x.score = s <;> simp [hx]

/-! ## Lemmas about `retrieve` -/

theorem retrieve_of_guards (documents : List Document) (query : List Char) (topK : ℕ)
    (h1 : query ≠ []) (h2 : trimChars query ≠ []) (h3 : (tokenize query).length ≠ 0) :
    retrieve documents query topK =
      (sortByScoreDesc
        ((scoredList documents query).filter (fun s => decide (0 < s.score)))).take topK := by
  rw [retrieve, if_neg h1, if_neg h2, if_neg h3]

theorem retrieve_empty_collection (query : List Char) (topK : ℕ) :
    retrieve [] query topK = [] := by
  by_cases h1 : query = []
  · rw [retrieve, if_pos h1]
  by_cases h2 : trimChars query = []
  · rw [retrieve, if_neg h1, if_pos h2]
  by_cases h3 : (tokenize query).length = 0
  · rw [retrieve, if_neg h1, if_neg h2, if_pos h3]
  rw [retrieve_of_guards [] query topK h1 h2 h3]
  simp [scoredList, calculateTFIDF, sortByScoreDesc]

theorem tfidfVecOf_all_docs_val_zero (documents : List Document) (t : List Char)
    (hdf : termDocFreq documents t = documents.length) :
    ∀ d ∈ documents, (tfidfVecOf documents d).val t = 0 := by
  intro d hd
  simp only [tfidfVecOf]
  by_cases hmem : t ∈ tokenize d.content
  · rw [if_pos hmem]
    have hne : documents ≠ [] := List.ne_nil_of_mem hd
    have hlen : documents.length ≠ 0 := by
      simpa [List.length_eq_zero] using hne
    have hdc : docCount documents = documents.length := by
      rw [docCount, if_neg hlen]
    have hdfne : termDocFreq documents t ≠ 0 := by
      rw [hdf]
      exact hlen
    rw [if_neg hdfne, hdf, hdc, div_self (by exact_mod_cast hlen), Real.log_one, mul_zero]
  · rw [if_neg hmem]

theorem tfidfVecOf_single_val_zero (d : Document) (t : List Char) :
    (tfidfVecOf [d] d).val t = 0 := by
  by_cases hmem : t ∈ tokenize d.content
  · refine tfidfVecOf_all_docs_val_zero [d] t ?_ d (List.mem_singleton_self d)
    simp [termDocFreq, hmem]
  · simp only [tfidfVecOf]
    rw [if_neg hmem]

theorem retrieve_single_empty (d : Document) (query : List Char) (topK : ℕ) :
    retrieve [d] query topK = [] := by
  by_cases h1 : query = []
  · rw [retrieve, if_pos h1]
  by_cases h2 : trimChars query = []
  · rw [retrieve, if_neg h1, if_pos h2]
  by_cases h3 : (tokenize query).length = 0
  · rw [retrieve, if_neg h1, if_neg h2, if_pos h3]
  rw [retrieve_of_guards [d] query topK h1 h2 h3]
  have hcos : cosineSimilarity (buildQueryVec (tokenize query)) (tfidfVecOf [d] d) = 0 :=
    cosineSimilarity_eq_zero _ _ (fun t _ => by
      rw [tfidfVecOf_single_val_zero d t, mul_zero])
  have hscored : scoredList [d] query =
      [ScoredDoc.mk d (cosineSimilarity (buildQueryVec (tokenize query)) (tfidfVecOf [d] d))] := by
    simp [scoredList, calculateTFIDF]
  rw [hscored, hcos]
  simp [sortByScoreDesc]

/-! ## Claim theorems -/

/-- Claim C3: for every document collection, the weight vector built for a
document `d` assigns to every term `t` occurring in `d` the weight
`tf(t, d) × idf(t)` (with `tf` and `idf` as the specification defines
them), and the stored keys are exactly the terms with `tf(t, d) > 0`. -/
theorem c3_build_weights :
    (∀ (documents : List Document) (d : Document), d ∈ documents →
      ∀ t ∈ tokenize d.content,
        (tfidfVecOf documents d).val t = tfSpec d t * idfSpec documents t) ∧
    (∀ (documents : List Document) (d : Document) (t : List Char),
      t ∈ (tfidfVecOf documents d).support ↔ 0 < tfSpec d t) := by
  constructor
  · intro documents d hd t ht
    simp only [tfidfVecOf]
    rw [if_pos ht]
    have hne : documents ≠ [] := List.ne_nil_of_mem hd
    have hlen : documents.length ≠ 0 := by
      simpa [List.length_eq_zero] using hne
    have hdc : docCount documents = documents.length := by
      rw [docCount, if_neg hlen]
    have hdfpos : 0 < termDocFreq documents t := by
      rw [termDocFreq]
      refine List.countP_pos_iff.mpr ⟨d, hd, ?_⟩
      simp [List.mem_dedup, ht]
    have hdfeq : termDocFreq documents t = dfSpec documents t := by
      rw [termDocFreq, dfSpec, List.countP_eq_length_filter]
    rw [if_neg (Nat.pos_iff_ne_zero.mp hdfpos), hdc, hdfeq, tfSpec, idfSpec]
  · intro documents d t
    simp only [tfidfVecOf]
    have hden : (0 : ℝ) < max 1 ((tokenize d.content).length : ℝ) :=
      lt_of_lt_of_le zero_lt_one le_sup_left
    constructor
    · intro hmem
      have ht : t ∈ tokenize d.content := List.mem_dedup.mp hmem
      have hcount : 0 < (tokenize d.content).count t := List.count_pos_iff.mpr ht
      exact div_pos (by exact_mod_cast hcount) hden
    · intro htf
      by_contra hnm
      have ht : t ∉ tokenize d.content := fun hmem => hnm (List.mem_dedup.mpr hmem)
      have hcount : (tokenize d.content).count t = 0 := List.count_eq_zero.mpr ht
      rw [tfSpec, hcount] at htf
      simp at htf

/-- Witness for C3 at the three-document scenario and the term
`"machine"` of the third document. -/
theorem c3_build_weights_witness :
    (tfidfVecOf threeDocs aiDoc3).val "machine".data =
        tfSpec aiDoc3 "machine".data * idfSpec threeDocs "machine".data ∧
      ("machine".data ∈ (tfidfVecOf threeDocs aiDoc3).support ↔
        0 < tfSpec aiDoc3 "machine".data) :=
  ⟨c3_build_weights.1 threeDocs aiDoc3 (by decide) "machine".data (by decide),
   c3_build_weights.2 threeDocs aiDoc3 "machine".data⟩

/-- Claim C5: the query vector used by `retrieve` maps each normalized
query term to its raw occurrence count in the normalized query — no
division by the query length and no IDF weighting. -/
theorem c5_query_vector_raw_counts (query : List Char) (t : List Char) :
    (buildQueryVec (tokenize query)).val t = ((tokenize query).count t : ℝ) :=
  buildQueryVec_val (tokenize query) t

/-- Claim C8: a query that is empty, whitespace-only, or that normalizes
to zero terms makes `retrieve` return the empty sequence. -/
theorem c8_degenerate_query (documents : List Document) (query : List Char) (topK : ℕ)
    (h : query = [] ∨ trimChars query = [] ∨ tokenize query = []) :
    retrieve documents query topK = [] := by
  rcases h with rfl | h | h
  · rw [retrieve, if_pos rfl]
  · by_cases hq : query = []
    · rw [retrieve, if_pos hq]
    · rw [retrieve, if_neg hq, if_pos h]
  · by_cases hq : query = []
    · rw [retrieve, if_pos hq]
    by_cases htrim : trimChars query = []
    · rw [retrieve, if_neg hq, if_pos htrim]
    · rw [retrieve, if_neg hq, if_neg htrim, if_pos (by rw [h]; rfl)]

/-- Witness for C8: the query `"is an to"` normalizes to zero terms, so
retrieval over the three-document scenario returns nothing. -/
theorem c8_degenerate_query_witness :
    retrieve threeDocs "is an to".data 3 = [] :=
  c8_degenerate_query threeDocs "is an to".data 3 (Or.inr (Or.inr (by decide)))

/-- Claim C9: retrieval over an index built from an empty document
collection returns the empty sequence for every query and `topK`. -/
theorem c9_empty_collection (query : List Char) (topK : ℕ) :
    retrieve [] query topK = [] :=
  retrieve_empty_collection query topK

/-- Claim C10: a term occurring in all `N` documents gets weight `0`
everywhere; in a one-document collection every stored weight is `0`, the
document's vector magnitude is `0`, and every retrieval returns the empty
sequence. -/
theorem c10_ubiquitous_term_zero :
    (∀ (documents : List Document) (t : List Char),
      termDocFreq documents t = documents.length →
      ∀ d ∈ documents, (tfidfVecOf documents d).val t = 0) ∧
    (∀ (d : Document) (t : List Char), (tfidfVecOf [d] d).val t = 0) ∧
    (∀ d : Document,
      (((tfidfVecOf [d] d).support).map
        (fun t => (tfidfVecOf [d] d).val t * (tfidfVecOf [d] d).val t)).sum = 0) ∧
    (∀ (d : Document) (query : List Char) (topK : ℕ), retrieve [d] query topK = []) := by
  refine ⟨tfidfVecOf_all_docs_val_zero, tfidfVecOf_single_val_zero, ?_, retrieve_single_empty⟩
  intro d
  refine List.sum_eq_zero ?_
  intro x hx
  obtain ⟨t, _, rfl⟩ := List.mem_map.mp hx
  rw [tfidfVecOf_single_val_zero d t, mul_zero]

/-- Witness for C10: in the two-document collection with identical
contents, `"cat"` occurs in both documents and its weight in the first
document is `0`. -/
theorem c10_ubiquitous_term_zero_witness :
    (tfidfVecOf twinDocs twinDoc1).val "cat".data = 0 :=
  c10_ubiquitous_term_zero.1 twinDocs "cat".data (by decide) twinDoc1 (by decide)

/-- Claim C6: the sequence returned by `retrieve` is sorted by score in
non-increasing order, and the results of any fixed score appear in the
same relative order as in the input collection (stable tie-breaking),
expressed as a sublist relationship with the scored input-order list. -/
theorem c6_sorted_and_stable (documents : List Document) (query : List Char) (topK : ℕ) :
    (retrieve documents query topK).Pairwise (fun a b => b.score ≤ a.score) ∧
    ∀ s : ℝ,
      ((retrieve documents query topK).filter (fun r => decide (r.score = s))).Sublist
        ((scoredList documents query).filter (fun r => decide (r.score = s))) := by
  by_cases h1 : query = []
  · rw [retrieve, if_pos h1]
    exact ⟨List.Pairwise.nil, fun s => List.nil_sublist _⟩
  by_cases h2 : trimChars query = []
  · rw [retrieve, if_neg h1, if_pos h2]
    exact ⟨List.Pairwise.nil, fun s => List.nil_sublist _⟩
  by_cases h3 : (tokenize query).length = 0
  · rw [retrieve, if_neg h1, if_neg h2, if_pos h3]
    exact ⟨List.Pairwise.nil, fun s => List.nil_sublist _⟩
  rw [retrieve_of_guards documents query topK h1 h2 h3]
  constructor
  · exact List.Pairwise.sublist (List.take_sublist topK _) (sortByScoreDesc_pairwise _)
  · intro s
    have hstep1 :
        (((sortByScoreDesc
            ((scoredList documents query).filter (fun r => decide (0 < r.score)))).take
              topK).filter (fun r => decide (r.score = s))).Sublist
          ((sortByScoreDesc
            ((scoredList documents query).filter (fun r => decide (0 < r.score)))).filter
              (fun r => decide (r.score = s))) :=
      List.Sublist.filter _ (List.take_sublist topK _)
    rw [sortByScoreDesc_filter_score] at hstep1
    exact hstep1.trans (List.Sublist.filter _ (List.filter_sublist _))

/-- Claim C7: `retrieve` returns at most `topK` results, at most as many
results as there are documents with strictly positive similarity, and
every returned score lies in `(0, 1]`. -/
theorem c7_result_bounds (documents : List Document) (query : List Char) (topK : ℕ) :
    (retrieve documents query topK).length ≤ topK ∧
    (retrieve documents query topK).length ≤
      (scoredList documents query).countP (fun r => decide (0 < r.score)) ∧
    ∀ r ∈ retrieve documents query topK, 0 < r.score ∧ r.score ≤ 1 := by
  by_cases h1 : query = []
  · rw [retrieve, if_pos h1]
    exact ⟨Nat.zero_le _, Nat.zero_le _, fun r hr => absurd hr (List.not_mem_nil r)⟩
  by_cases h2 : trimChars query = []
  · rw [retrieve, if_neg h1, if_pos h2]
    exact ⟨Nat.zero_le _, Nat.zero_le _, fun r hr => absurd hr (List.not_mem_nil r)⟩
  by_cases h3 : (tokenize query).length = 0
  · rw [retrieve, if_neg h1, if_neg h2, if_pos h3]
    exact ⟨Nat.zero_le _, Nat.zero_le _, fun r hr => absurd hr (List.not_mem_nil r)⟩
  rw [retrieve_of_guards documents query topK h1 h2 h3]
  refine ⟨List.length_take_le topK _, ?_, ?_⟩
  · calc ((sortByScoreDesc
          ((scoredList documents query).filter (fun r => decide (0 < r.score)))).take
            topK).length
        ≤ (sortByScoreDesc
            ((scoredList documents query).filter (fun r => decide (0 < r.score)))).length :=
          (List.take_sublist topK _).length_le
      _ = ((scoredList documents query).filter (fun r => decide (0 < r.score))).length :=
          (sortByScoreDesc_perm _).length_eq
      _ = (scoredList documents query).countP (fun r => decide (0 < r.score)) :=
          (List.countP_eq_length_filter _ _).symm
  · intro r hr
    have hr1 : r ∈ sortByScoreDesc
        ((scoredList documents query).filter (fun r => decide (0 < r.score))) :=
      List.mem_of_mem_take hr
    have hr2 : r ∈ (scoredList documents query).filter (fun r => decide (0 < r.score)) :=
      (sortByScoreDesc_perm _).mem_iff.mp hr1
    obtain ⟨hr3, hpos⟩ := List.mem_filter.mp hr2
    refine ⟨by simpa using hpos, ?_⟩
    obtain ⟨p, _, rfl⟩ := List.mem_map.mp hr3
    exact cosineSimilarity_le_one _ _

/-! ## The unique-match scenario: one document made of the query's terms -/

theorem count_flatten_replicate (m : ℕ) (l : List (List Char)) (t : List Char) :
    ((List.replicate m l).flatten).count t = m * l.count t := by
  induction m with
  | zero => simp
  | succ n ih =>
    rw [List.replicate_succ, List.flatten_cons, List.count_append, ih]
    ring

theorem length_flatten_replicate (m : ℕ) (l : List (List Char)) :
    ((List.replicate m l).flatten).length = m * l.length := by
  induction m with
  | zero => simp
  | succ n ih =>
    rw [List.replicate_succ, List.flatten_cons, List.length_append, ih]
    ring

theorem mem_flatten_replicate {m : ℕ} (hm : 1 ≤ m) (l : List (List Char)) (t : List Char) :
    t ∈ (List.replicate m l).flatten ↔ t ∈ l := by
  rw [List.mem_flatten]
  constructor
  · rintro ⟨s, hs, ht⟩
    rwa [List.eq_of_mem_replicate hs] at ht
  · intro ht
    exact ⟨l, List.mem_replicate.mpr ⟨by omega, rfl⟩, ht⟩

theorem scoredList_eq_map (documents : List Document) (query : List Char) :
    scoredList documents query = documents.map
      (fun d' => ScoredDoc.mk d'
        (cosineSimilarity (buildQueryVec (tokenize query)) (tfidfVecOf documents d'))) := by
  rw [scoredList, calculateTFIDF, List.map_map]
  rfl

theorem retrieve_unique_match (pre post : List Document) (d : Document)
    (query : List Char) (m topK : ℕ)
    (hq : tokenize query ≠ [])
    (hm : 1 ≤ m)
    (hd : tokenize d.content = (List.replicate m (tokenize query)).flatten)
    (hothers : ∀ d' ∈ pre ++ post, ∀ t ∈ tokenize query, t ∉ tokenize d'.content)
    (hN : 2 ≤ (pre ++ d :: post).length)
    (hk : 1 ≤ topK) :
    retrieve (pre ++ d :: post) query topK = [ScoredDoc.mk d 1] := by
  set docs : List Document := pre ++ d :: post with hdocs
  set qts : List (List Char) := tokenize query with hqts
  -- basic facts
  have hdmem : d ∈ docs := List.mem_append.mpr (Or.inr (List.mem_cons_self d post))
  have hL : 0 < qts.length := List.length_pos.mpr hq
  have hmemd : ∀ t, t ∈ tokenize d.content ↔ t ∈ qts := by
    intro t
    rw [hd]
    exact mem_flatten_replicate hm qts t
  have hlen_ne : docs.length ≠ 0 := by omega
  have hdc : docCount docs = docs.length := by
    rw [docCount, if_neg hlen_ne]
  -- document frequency of every query term is 1
  have hdf : ∀ t ∈ qts, termDocFreq docs t = 1 := by
    intro t ht
    rw [termDocFreq, hdocs, List.countP_append, List.countP_cons]
    have hpre : pre.countP (fun d' => decide (t ∈ (tokenize d'.content).dedup)) = 0 := by
      refine List.countP_eq_zero.mpr ?_
      intro d' hd'
      simp only [decide_eq_true_eq, List.mem_dedup]
      exact hothers d' (List.mem_append.mpr (Or.inl hd')) t ht
    have hpost : post.countP (fun d' => decide (t ∈ (tokenize d'.content).dedup)) = 0 := by
      refine List.countP_eq_zero.mpr ?_
      intro d' hd'
      simp only [decide_eq_true_eq, List.mem_dedup]
      exact hothers d' (List.mem_append.mpr (Or.inr hd')) t ht
    have hdmem' : (decide (t ∈ (tokenize d.content).dedup)) = true := by
      simp only [decide_eq_true_eq, List.mem_dedup]
      exact (hmemd t).mpr ht
    rw [hpre, hpost, hdmem']
    simp
  -- the weight of every query term in d
  set lam : ℝ := Real.log (docs.length : ℝ) / (qts.length : ℝ) with hlam_def
  have hlam : 0 < lam := by
    refine div_pos (Real.log_pos ?_) (by exact_mod_cast hL)
    have : (2 : ℝ) ≤ (docs.length : ℝ) := by exact_mod_cast hN
    linarith
  have hdval : ∀ t ∈ qts, (tfidfVecOf docs d).val t = lam * (qts.count t : ℝ) := by
    intro t ht
    simp only [tfidfVecOf]
    rw [if_pos ((hmemd t).mpr ht), hd, count_flatten_replicate, length_flatten_replicate]
    rw [if_neg (by rw [hdf t ht]; exact one_ne_zero), hdf t ht, hdc]
    have hmax : max 1 ((m * qts.length : ℕ) : ℝ) = ((m * qts.length : ℕ) : ℝ) := by
      refine max_eq_right ?_
      have : 1 ≤ m * qts.length := Nat.one_le_iff_ne_zero.mpr (by positivity)
      exact_mod_cast this
    rw [hmax]
    have hm0 : (m : ℝ) ≠ 0 := by exact_mod_cast Nat.one_le_iff_ne_zero.mp hm
    have hL0 : ((qts.length : ℕ) : ℝ) ≠ 0 := by
      exact_mod_cast Nat.pos_iff_ne_zero.mp hL
    push_cast
    rw [div_one, hlam_def]
    field_simp
    ring
  -- d's score is exactly 1
  have hqv_val : ∀ t, (buildQueryVec qts).val t = (qts.count t : ℝ) :=
    fun t => buildQueryVec_val qts t
  have hunion_sub : ∀ t, t ∈ unionKeys (buildQueryVec qts) (tfidfVecOf docs d) → t ∈ qts := by
    intro t ht
    rcases List.mem_append.mp (List.mem_dedup.mp ht) with hq' | hd'
    · exact (buildQueryVec_support qts t).mp hq'
    · exact (hmemd t).mp (List.mem_dedup.mp hd')
  have hcos_d : cosineSimilarity (buildQueryVec qts) (tfidfVecOf docs d) = 1 := by
    refine cosineSimilarity_eq_one _ _ lam hlam ?_ (qts.head hq) ?_ ?_
    · intro t ht
      rw [hdval t (hunion_sub t ht), hqv_val t]
    · refine List.mem_dedup.mpr (List.mem_append.mpr (Or.inl ?_))
      exact (buildQueryVec_support qts _).mpr (List.head_mem hq)
    · rw [hqv_val]
      have : 0 < qts.count (qts.head hq) := List.count_pos_iff.mpr (List.head_mem hq)
      exact_mod_cast Nat.pos_iff_ne_zero.mp this
  -- every other document's score is 0
  have hcos_other : ∀ d' ∈ pre ++ post,
      cosineSimilarity (buildQueryVec qts) (tfidfVecOf docs d') = 0 := by
    intro d' hd'
    refine cosineSimilarity_eq_zero _ _ ?_
    intro t ht
    rcases List.mem_append.mp (List.mem_dedup.mp ht) with hq' | hds
    · have htq : t ∈ qts := (buildQueryVec_support qts t).mp hq'
      have : t ∉ tokenize d'.content := hothers d' hd' t htq
      simp only [tfidfVecOf]
      rw [if_neg this, mul_zero]
    · have htd : t ∈ tokenize d'.content := List.mem_dedup.mp hds
      have htq : t ∉ qts := fun htq => hothers d' hd' t htq htd
      rw [hqv_val t, List.count_eq_zero.mpr htq, Nat.cast_zero, zero_mul]
  -- assemble the retrieval result
  have hq1 : query ≠ [] := by
    intro h
    rw [h] at hqts
    exact hq (hqts ▸ tokenize_nil)
  have hq2 : trimChars query ≠ [] := fun h => hq (hqts ▸ tokenize_of_trim_eq_nil h)
  have hq3 : (tokenize query).length ≠ 0 := by
    rw [← hqts]
    omega
  rw [retrieve_of_guards docs query topK hq1 hq2 hq3, scoredList_eq_map, hdocs]
  rw [List.map_append, List.map_cons, List.filter_append, List.filter_cons]
  have hfpre : (pre.map (fun d' => ScoredDoc.mk d'
      (cosineSimilarity (buildQueryVec (tokenize query)) (tfidfVecOf docs d')))).filter
        (fun s => decide (0 < s.score)) = [] := by
    refine List.filter_eq_nil_iff.mpr ?_
    intro x hx
    obtain ⟨d', hd', rfl⟩ := List.mem_map.mp hx
    simp only [decide_eq_true_eq]
    rw [← hqts, hcos_other d' (List.mem_append.mpr (Or.inl hd'))]
    exact lt_irrefl 0
  have hfpost : (post.map (fun d' => ScoredDoc.mk d'
      (cosineSimilarity (buildQueryVec (tokenize query)) (tfidfVecOf docs d')))).filter
        (fun s => decide (0 < s.score)) = [] := by
    refine List.filter_eq_nil_iff.mpr ?_
    intro x hx
    obtain ⟨d', hd', rfl⟩ := List.mem_map.mp hx
    simp only [decide_eq_true_eq]
    rw [← hqts, hcos_other d' (List.mem_append.mpr (Or.inr hd'))]
    exact lt_irrefl 0
  have hdscore : cosineSimilarity (buildQueryVec (tokenize query)) (tfidfVecOf docs d) = 1 := by
    rw [← hqts]
    exact hcos_d
  rw [hfpre, hfpost, hdscore]
  simp only [decide_eq_true_eq, zero_lt_one, if_pos, List.nil_append]
  have hsort : sortByScoreDesc [ScoredDoc.mk d 1] = [ScoredDoc.mk d 1] := by
    simp [sortByScoreDesc, insertDesc]
  rw [hsort]
  cases topK with
  | zero => omega
  | succ n => simp

theorem tfidf_val_not_mem (documents : List Document) (d : Document) (t : List Char)
    (h : t ∉ tokenize d.content) : (tfidfVecOf documents d).val t = 0 := by
  simp only [tfidfVecOf]
  rw [if_neg h]

theorem qv_val_not_mem (query t : List Char) (h : t ∉ tokenize query) :
    (buildQueryVec (tokenize query)).val t = 0 := by
  rw [buildQueryVec_val, List.count_eq_zero.mpr h, Nat.cast_zero]

/-! ## The three-document scenario -/

theorem three_docs_score1 :
    cosineSimilarity (buildQueryVec (tokenize mlQuery)) (tfidfVecOf threeDocs aiDoc1) = 0 := by
  refine cosineSimilarity_eq_zero _ _ ?_
  intro t ht
  have hkeys : unionKeys (buildQueryVec (tokenize mlQuery)) (tfidfVecOf threeDocs aiDoc1) =
      ["machine".data, "learning".data, "subset".data] := by decide
  rw [hkeys] at ht
  simp only [List.mem_cons, List.not_mem_nil, or_false] at ht
  rcases ht with rfl | rfl | rfl
  · rw [tfidf_val_not_mem threeDocs aiDoc1 _ (by decide), mul_zero]
  · rw [tfidf_val_not_mem threeDocs aiDoc1 _ (by decide), mul_zero]
  · rw [qv_val_not_mem mlQuery _ (by decide), zero_mul]

theorem three_docs_score2 :
    cosineSimilarity (buildQueryVec (tokenize mlQuery)) (tfidfVecOf threeDocs aiDoc2) = 0 := by
  refine cosineSimilarity_eq_zero _ _ ?_
  intro t ht
  have hkeys : unionKeys (buildQueryVec (tokenize mlQuery)) (tfidfVecOf threeDocs aiDoc2) =
      ["machine".data, "learning".data, "cats".data, "are".data, "mammals".data] := by decide
  rw [hkeys] at ht
  simp only [List.mem_cons, List.not_mem_nil, or_false] at ht
  rcases ht with rfl | rfl | rfl | rfl | rfl
  · rw [tfidf_val_not_mem threeDocs aiDoc2 _ (by decide), mul_zero]
  · rw [tfidf_val_not_mem threeDocs aiDoc2 _ (by decide), mul_zero]
  · rw [qv_val_not_mem mlQuery _ (by decide), zero_mul]
  · rw [qv_val_not_mem mlQuery _ (by decide), zero_mul]
  · rw [qv_val_not_mem mlQuery _ (by decide), zero_mul]

theorem three_docs_v3_machine :
    (tfidfVecOf threeDocs aiDoc3).val "machine".data = 1 / 5 * Real.log 3 := by
  simp only [tfidfVecOf]
  rw [if_pos (by decide : "machine".data ∈ tokenize aiDoc3.content),
    show (tokenize aiDoc3.content).count "machine".data = 1 from by decide,
    show (tokenize aiDoc3.content).length = 5 from by decide,
    show termDocFreq threeDocs "machine".data = 1 from by decide,
    show docCount threeDocs = 3 from by decide]
  norm_num

theorem three_docs_v3_learning :
    (tfidfVecOf threeDocs aiDoc3).val "learning".data = 2 / 5 * Real.log 3 := by
  simp only [tfidfVecOf]
  rw [if_pos (by decide : "learning".data ∈ tokenize aiDoc3.content),
    show (tokenize aiDoc3.content).count "learning".data = 2 from by decide,
    show (tokenize aiDoc3.content).length = 5 from by decide,
    show termDocFreq threeDocs "learning".data = 1 from by decide,
    show docCount threeDocs = 3 from by decide]
  norm_num

theorem three_docs_qv_machine :
    (buildQueryVec (tokenize mlQuery)).val "machine".data = 1 := by
  rw [buildQueryVec_val, show (tokenize mlQuery).count "machine".data = 1 from by decide,
    Nat.cast_one]

theorem three_docs_qv_learning :
    (buildQueryVec (tokenize mlQuery)).val "learning".data = 1 := by
  rw [buildQueryVec_val, show (tokenize mlQuery).count "learning".data = 1 from by decide,
    Nat.cast_one]

theorem three_docs_score3_pos :
    0 < cosineSimilarity (buildQueryVec (tokenize mlQuery)) (tfidfVecOf threeDocs aiDoc3) := by
  have hkeys : unionKeys (buildQueryVec (tokenize mlQuery)) (tfidfVecOf threeDocs aiDoc3) =
      ["deep".data, "part".data, "machine".data, "learning".data] := by decide
  have hlog3 : (0 : ℝ) < Real.log 3 := Real.log_pos (by norm_num)
  have hdot : ((unionKeys (buildQueryVec (tokenize mlQuery))
        (tfidfVecOf threeDocs aiDoc3)).map
      (fun t => (buildQueryVec (tokenize mlQuery)).val t *
        (tfidfVecOf threeDocs aiDoc3).val t)).sum = 3 / 5 * Real.log 3 := by
    rw [hkeys]
    simp only [List.map_cons, List.map_nil, List.sum_cons, List.sum_nil]
    rw [qv_val_not_mem mlQuery _ (by decide), qv_val_not_mem mlQuery _ (by decide),
      three_docs_qv_machine, three_docs_qv_learning, three_docs_v3_machine,
      three_docs_v3_learning]
    ring
  have hm1 : ((unionKeys (buildQueryVec (tokenize mlQuery))
        (tfidfVecOf threeDocs aiDoc3)).map
      (fun t => (buildQueryVec (tokenize mlQuery)).val t *
        (buildQueryVec (tokenize mlQuery)).val t)).sum = 2 := by
    rw [hkeys]
    simp only [List.map_cons, List.map_nil, List.sum_cons, List.sum_nil]
    rw [qv_val_not_mem mlQuery _ (by decide), qv_val_not_mem mlQuery _ (by decide),
      three_docs_qv_machine, three_docs_qv_learning]
    ring
  have hm2pos : 0 < ((unionKeys (buildQueryVec (tokenize mlQuery))
        (tfidfVecOf threeDocs aiDoc3)).map
      (fun t => (tfidfVecOf threeDocs aiDoc3).val t *
        (tfidfVecOf threeDocs aiDoc3).val t)).sum := by
    have hmem : ((tfidfVecOf threeDocs aiDoc3).val "machine".data *
        (tfidfVecOf threeDocs aiDoc3).val "machine".data) ∈
        ((unionKeys (buildQueryVec (tokenize mlQuery))
          (tfidfVecOf threeDocs aiDoc3)).map
        (fun t => (tfidfVecOf threeDocs aiDoc3).val t *
          (tfidfVecOf threeDocs aiDoc3).val t)) := by
      refine List.mem_map_of_mem _ ?_
      rw [hkeys]
      decide
    refine lt_of_lt_of_le ?_ (List.single_le_sum ?_ _ hmem)
    · rw [three_docs_v3_machine]
      positivity
    · intro x hx
      obtain ⟨t, _, rfl⟩ := List.mem_map.mp hx
      exact mul_self_nonneg _
  have hdenom_pos : 0 < Real.sqrt ((unionKeys (buildQueryVec (tokenize mlQuery))
        (tfidfVecOf threeDocs aiDoc3)).map
      (fun t => (buildQueryVec (tokenize mlQuery)).val t *
        (buildQueryVec (tokenize mlQuery)).val t)).sum *
      Real.sqrt ((unionKeys (buildQueryVec (tokenize mlQuery))
        (tfidfVecOf threeDocs aiDoc3)).map
      (fun t => (tfidfVecOf threeDocs aiDoc3).val t *
        (tfidfVecOf threeDocs aiDoc3).val t)).sum := by
    refine mul_pos (Real.sqrt_pos.mpr ?_) (Real.sqrt_pos.mpr hm2pos)
    rw [hm1]
    norm_num
  unfold cosineSimilarity
  dsimp only
  rw [if_neg (ne_of_gt hdenom_pos)]
  refine div_pos ?_ hdenom_pos
  rw [hdot]
  exact mul_pos (by norm_num) hlog3

theorem retrieve_three_docs :
    retrieve threeDocs mlQuery 3 =
      [ScoredDoc.mk aiDoc3
        (cosineSimilarity (buildQueryVec (tokenize mlQuery)) (tfidfVecOf threeDocs aiDoc3))] := by
  have hmap : scoredList threeDocs mlQuery =
      [ScoredDoc.mk aiDoc1
        (cosineSimilarity (buildQueryVec (tokenize mlQuery)) (tfidfVecOf threeDocs aiDoc1)),
       ScoredDoc.mk aiDoc2
        (cosineSimilarity (buildQueryVec (tokenize mlQuery)) (tfidfVecOf threeDocs aiDoc2)),
       ScoredDoc.mk aiDoc3
        (cosineSimilarity (buildQueryVec (tokenize mlQuery)) (tfidfVecOf threeDocs aiDoc3))] :=
    rfl
  rw [retrieve_of_guards threeDocs mlQuery 3 (by decide) (by decide) (by decide), hmap,
    three_docs_score1, three_docs_score2]
  rw [List.filter_cons_of_neg (by simp), List.filter_cons_of_neg (by simp),
    List.filter_cons_of_pos (by simp [three_docs_score3_pos]), List.filter_nil]
  rfl

/-! ## Claim theorems for the two scenarios -/

/-- Claim C1 is false on the code: for the single-document collection
whose document consists of the query's terms repeated, every term has
`df = N = 1`, so `idf = ln 1 = 0`, all weights vanish and `retrieve`
returns the empty sequence instead of the document with similarity 1. -/
theorem c1_single_doc_counterexample :
    retrieve [mlDoc] mlQuery 3 = [] :=
  retrieve_single_empty mlDoc mlQuery 3

/-- Claim C1 (amended): in a collection of at least two documents, if one
document's content normalizes to the query's terms repeated `m ≥ 1` times
and no other document contains any of the query's terms, then `retrieve`
(with `topK ≥ 1`) returns exactly that document with cosine similarity
exactly 1. -/
theorem c1_exact_match_amended (pre post : List Document) (d : Document)
    (query : List Char) (m topK : ℕ)
    (hq : tokenize query ≠ [])
    (hm : 1 ≤ m)
    (hd : tokenize d.content = (List.replicate m (tokenize query)).flatten)
    (hothers : ∀ d' ∈ pre ++ post, ∀ t ∈ tokenize query, t ∉ tokenize d'.content)
    (hN : 2 ≤ (pre ++ d :: post).length)
    (hk : 1 ≤ topK) :
    retrieve (pre ++ d :: post) query topK = [ScoredDoc.mk d 1] :=
  retrieve_unique_match pre post d query m topK hq hm hd hothers hN hk

/-- Witness for the amended C1: the exact-match document together with an
unrelated document; retrieval returns the match with similarity 1. -/
theorem c1_exact_match_amended_witness :
    retrieve [mlDoc, catDoc] mlQuery 3 = [ScoredDoc.mk mlDoc 1] :=
  c1_exact_match_amended [] [catDoc] mlDoc mlQuery 2 3 (by decide) (by decide)
    (by decide) (by decide) (by decide) (by decide)

/-- Concrete two-document retrieval used by the C7 witness (proved from
the internal unique-match lemma). -/
theorem retrieve_pair_concrete :
    retrieve [mlDoc, catDoc] mlQuery 3 = [ScoredDoc.mk mlDoc 1] :=
  retrieve_unique_match [] [catDoc] mlDoc mlQuery 2 3 (by decide) (by decide)
    (by decide) (by decide) (by decide) (by decide)

/-- Witness for C7 at the two-document exact-match scenario. -/
theorem c7_result_bounds_witness :
    (retrieve [mlDoc, catDoc] mlQuery 3).length ≤ 3 ∧
      (0 < (ScoredDoc.mk mlDoc 1).score ∧ (ScoredDoc.mk mlDoc 1).score ≤ 1) :=
  ⟨(c7_result_bounds [mlDoc, catDoc] mlQuery 3).1,
   (c7_result_bounds [mlDoc, catDoc] mlQuery 3).2.2 (ScoredDoc.mk mlDoc 1)
     (by rw [retrieve_pair_concrete]; exact List.mem_singleton_self _)⟩

/-- Claim C2 is false on the code: document 1 (`"ML is a subset of AI"`)
shares no qualifying term (length `> 2`) with the query
`"machine learning"`, so the scenario returns one result, not two. -/
theorem c2_three_docs_counterexample :
    (retrieve threeDocs mlQuery 3).length ≠ 2 := by
  rw [retrieve_three_docs]
  decide

/-- Claim C2 (amended): on the three-document scenario with query
`"machine learning"` and `topK = 3`, `retrieve` returns exactly one
result, document 3; documents 1 and 2 are both excluded (document 1's
only qualifying term `"subset"` does not occur in the query). -/
theorem c2_three_docs_amended :
    (retrieve threeDocs mlQuery 3).map (fun r => r.doc) = [aiDoc3] ∧
      (retrieve threeDocs mlQuery 3).length = 1 := by
  rw [retrieve_three_docs]
  exact ⟨rfl, rfl⟩

/-! ## The normalizer pipeline equals splitting on whitespace -/

theorem splitOnSpace_ne_nil (l : List Char) : splitOnSpace l ≠ [] := by
  induction l with
  | nil => simp [splitOnSpace]
  | cons c rest ih =>
    rw [splitOnSpace]
    split
    · simp
    · obtain ⟨h, t, hht⟩ := List.exists_cons_of_ne_nil ih
      rw [hht]
      simp

theorem splitAnySpace_ne_nil (l : List Char) : splitAnySpace l ≠ [] := by
  induction l with
  | nil => simp [splitAnySpace]
  | cons c rest ih =>
    rw [splitAnySpace]
    split
    · simp
    · obtain ⟨h, t, hht⟩ := List.exists_cons_of_ne_nil ih
      rw [hht]
      simp

theorem collapseAux_space_is_blank (l : List Char) :
    ∀ (b : Bool) (c : Char), c ∈ collapseAux b l → isSpaceChar c = true → c = ' ' := by
  induction l with
  | nil =>
    intro b c hc
    simp [collapseAux] at hc
  | cons a rest ih =>
    intro b c hc hsp
    rw [collapseAux] at hc
    by_cases ha : isSpaceChar a = true
    · rw [if_pos ha] at hc
      cases b with
      | true => exact ih true c (by simpa using hc) hsp
      | false =>
        simp only [Bool.false_eq_true, if_neg] at hc
        rcases List.mem_cons.mp hc with rfl | hc'
        · rfl
        · exact ih true c hc' hsp
    · rw [if_neg ha] at hc
      rcases List.mem_cons.mp hc with rfl | hc'
      · exact absurd hsp ha
      · exact ih false c hc' hsp

theorem collapse_split (l : List Char) :
    (∀ b : Bool,
      (splitOnSpace (collapseAux b l)).filter (fun w => !w.isEmpty) =
        (splitAnySpace l).filter (fun w => !w.isEmpty)) ∧
    (splitOnSpace (collapseAux false l)).headD [] = (splitAnySpace l).headD [] := by
  induction l with
  | nil => exact ⟨fun b => rfl, rfl⟩
  | cons c rest ih =>
    obtain ⟨ihf, ihh⟩ := ih
    by_cases hsp : isSpaceChar c = true
    · constructor
      · intro b
        rw [collapseAux, if_pos hsp, splitAnySpace, if_pos hsp,
          List.filter_cons_of_neg (by simp)]
        cases b with
        | true =>
          rw [if_pos rfl]
          exact ihf true
        | false =>
          rw [if_neg (by simp)]
          rw [splitOnSpace, if_pos rfl, List.filter_cons_of_neg (by simp)]
          exact ihf true
      · rw [collapseAux, if_pos hsp, splitAnySpace, if_pos hsp]
        rw [if_neg (by simp)]
        rw [splitOnSpace, if_pos rfl]
        rfl
    · have hcsp : ¬(c = ' ') := fun h => hsp (by rw [h]; rfl)
      obtain ⟨hX, tX, hXeq⟩ :=
        List.exists_cons_of_ne_nil (splitOnSpace_ne_nil (collapseAux false rest))
      obtain ⟨hA, tA, hAeq⟩ := List.exists_cons_of_ne_nil (splitAnySpace_ne_nil rest)
      have hhead : hX = hA := by
        have := ihh
        rw [hXeq, hAeq] at this
        exact this
      have htails : tX.filter (fun w => !w.isEmpty) = tA.filter (fun w => !w.isEmpty) := by
        have hf := ihf false
        rw [hXeq, hAeq, hhead] at hf
        by_cases hha : hA.isEmpty
        · rwa [List.filter_cons_of_neg (by simp [hha]),
            List.filter_cons_of_neg (by simp [hha])] at hf
        · rw [List.filter_cons_of_pos (by simp [hha]),
            List.filter_cons_of_pos (by simp [hha])] at hf
          exact List.tail_eq_of_cons_eq hf
      constructor
      · intro b
        rw [collapseAux, if_neg hsp, splitAnySpace, if_neg hsp, splitOnSpace,
          if_neg hcsp, hXeq, hAeq, hhead]
        simp only [List.modifyHead_cons]
        rw [List.filter_cons_of_pos (by simp), List.filter_cons_of_pos (by simp)]
        rw [htails]
      · rw [collapseAux, if_neg hsp, splitAnySpace, if_neg hsp, splitOnSpace,
          if_neg hcsp, hXeq, hAeq, hhead]
        simp

theorem splitOnSpace_append_blank (X : List Char) :
    splitOnSpace (X ++ [' ']) = splitOnSpace X ++ [[]] := by
  induction X with
  | nil => rfl
  | cons c rest ih =>
    by_cases hc : c = ' '
    · subst hc
      rw [List.cons_append, splitOnSpace, if_pos rfl, ih, splitOnSpace, if_pos rfl]
      rfl
    · rw [List.cons_append, splitOnSpace, if_neg hc, ih, splitOnSpace, if_neg hc]
      obtain ⟨h, t, hht⟩ := List.exists_cons_of_ne_nil (splitOnSpace_ne_nil rest)
      rw [hht]
      rfl

theorem split_dropWhile_leading (X : List Char)
    (hX : ∀ c ∈ X, isSpaceChar c = true → c = ' ') :
    (splitOnSpace (X.dropWhile isSpaceChar)).filter (fun w => !w.isEmpty) =
      (splitOnSpace X).filter (fun w => !w.isEmpty) := by
  induction X with
  | nil => rfl
  | cons c rest ih =>
    by_cases hc : isSpaceChar c = true
    · have hcb : c = ' ' := hX c (List.mem_cons_self c rest) hc
      rw [List.dropWhile_cons_of_pos hc,
        ih (fun d hd => hX d (List.mem_cons_of_mem c hd)), hcb, splitOnSpace,
        if_pos rfl, List.filter_cons_of_neg (by simp)]
    · rw [List.dropWhile_cons_of_neg hc]

theorem split_dropWhile_trailing (X : List Char)
    (hX : ∀ c ∈ X, isSpaceChar c = true → c = ' ') :
    (splitOnSpace ((X.reverse.dropWhile isSpaceChar).reverse)).filter
        (fun w => !w.isEmpty) =
      (splitOnSpace X).filter (fun w => !w.isEmpty) := by
  induction X using List.reverseRecOn with
  | nil => rfl
  | append_singleton X c ih =>
    by_cases hc : isSpaceChar c = true
    · have hcb : c = ' ' := hX c (List.mem_append.mpr (Or.inr (List.mem_singleton_self c))) hc
      subst hcb
      rw [List.reverse_append]
      simp only [List.reverse_cons, List.reverse_nil, List.nil_append, List.singleton_append]
      rw [List.dropWhile_cons_of_pos hc,
        ih (fun d hd => hX d (List.mem_append.mpr (Or.inl hd))),
        splitOnSpace_append_blank, List.filter_append]
      simp
    · rw [List.reverse_append]
      simp only [List.reverse_cons, List.reverse_nil, List.nil_append, List.singleton_append]
      rw [List.dropWhile_cons_of_neg hc]
      simp

theorem split_trimChars (X : List Char)
    (hX : ∀ c ∈ X, isSpaceChar c = true → c = ' ') :
    (splitOnSpace (trimChars X)).filter (fun w => !w.isEmpty) =
      (splitOnSpace X).filter (fun w => !w.isEmpty) := by
  rw [trimChars]
  have hY : ∀ c ∈ X.dropWhile isSpaceChar, isSpaceChar c = true → c = ' ' :=
    fun c hc => hX c ((List.dropWhile_sublist isSpaceChar).mem hc)
  rw [split_dropWhile_trailing (X.dropWhile isSpaceChar) hY, split_dropWhile_leading X hX]

theorem filter_isEmpty_filter_len (xs : List (List Char)) :
    (xs.filter (fun w => !w.isEmpty)).filter (fun w => decide (2 < w.length)) =
      xs.filter (fun w => decide (2 < w.length)) := by
  rw [List.filter_filter]
  refine List.filter_congr ?_
  intro w _
  cases w with
  | nil => simp
  | cons a t => simp

/-- Claim C4: the source tokenizer equals the specification's normalizer:
lowercase, replace every character that is neither a word character nor
whitespace with a space, split on whitespace, and discard every token of
length `≤ 2` (order and duplicates preserved); empty input yields the
empty sequence. -/
theorem c4_tokenizer_refines :
    (∀ l : List Char, tokenize l = specTokenize l) ∧ tokenize [] = [] := by
  refine ⟨?_, tokenize_nil⟩
  intro l
  by_cases hl : l = []
  · subst hl
    rfl
  · rw [tokenize, if_neg hl, preprocessText, specTokenize,
      ← filter_isEmpty_filter_len (splitOnSpace (trimChars (collapseWS (replaceStep (lowerStep l))))),
      split_trimChars (collapseWS (replaceStep (lowerStep l)))
        (fun c hc hsp => collapseAux_space_is_blank (replaceStep (lowerStep l)) false c hc hsp),
      ← filter_isEmpty_filter_len (splitAnySpace (replaceStep (lowerStep l))),
      collapseWS, (collapse_split (replaceStep (lowerStep l))).1 false]

end RagRetrieval
